import Mathlib

/-!
Shallow embedding of the hybrid risk-scoring pipeline of the `ai-digest`
CLI: the formula scorer (`src/analysis/risk.ts`), the AI escalation module
(`src/analysis/ai-risk.ts`: `batchAnalyzeRisksWithAI`, `hybridRiskAnalysis`,
and the private `calculateFormulaRisk`), and the merge of escalation results
back into the record sequence.  JavaScript numbers are embedded as exact
rationals (`ℚ`), integer-valued count fields as `ℤ`, the JS `Map` as an
insertion-ordered association list, and the asynchronous analysis provider
as a function `PullRequest → Option AIRiskAnalysis` (`none` = the promise
rejected / the response failed validation).
-/

/-- `startsWith n h` : the char list `n` is a prefix of `h`. -/
def startsWith : List Char → List Char → Bool
  | [], _ => true
  | _ :: _, [] => false
  | a :: as, b :: bs => a == b && startsWith as bs

/-- `hasSub n h` : the char list `n` occurs as a contiguous substring of `h`.
This is what a JavaScript regex that is a plain alternation of literals
(`/test|spec/` etc.) tests on a string. -/
def hasSub (n : List Char) : List Char → Bool
  | [] => startsWith n []
  | c :: rest => startsWith n (c :: rest) || hasSub n rest

/-- `f.toLowerCase()` on the character data of a string. -/
def lowerData (s : String) : List Char := s.data.map Char.toLower

/-- The test-file pattern of `risk.ts` line 118–120:
`/test|spec|\.test\.|\.spec\./.test(f.toLowerCase())` — case-insensitive
because the path is lower-cased first. -/
def riskTestPattern (f : String) : Bool :=
  hasSub (("test").data) (lowerData f) || hasSub (("spec").data) (lowerData f) ||
  hasSub ((".test.").data) (lowerData f) || hasSub ((".spec.").data) (lowerData f)

/-- The test-file pattern of `ai-risk.ts` line 136:
`/test|spec/.test(f)` — the raw path, no lower-casing. -/
def formulaTestPattern (f : String) : Bool :=
  hasSub (("test").data) f.data || hasSub (("spec").data) f.data

/-- `PullRequest` from `src/github/types.ts`.  `createdAt`/`mergedAt` are
epoch instants; `timeToMergeHours` is the derived field the scorers read. -/
structure PullRequest where
  number : ℕ
  title : String
  url : String
  labels : List String
  additions : ℤ
  deletions : ℤ
  changedFiles : ℤ
  filesChanged : List String
  createdAt : ℚ
  mergedAt : Option ℚ
  timeToMergeHours : ℚ
  author : String
  riskScore : Option ℚ
  deriving DecidableEq

/-- `AIRiskAnalysis` from `ai-risk.ts` (the zod `riskAnalysisSchema`). -/
structure AIRiskAnalysis where
  riskScore : ℚ
  riskFactors : List String
  reasoning : String
  concerns : List String
  recommendations : List String
  deriving DecidableEq

/-- `calculateRisk` from `src/analysis/risk.ts` lines 109–133. -/
def calculateRisk (pr : PullRequest) : ℚ :=
  let totalLines : ℚ := (pr.additions : ℚ) + (pr.deletions : ℚ)
  let normalizedLines : ℚ := min totalLines 2000 / 2000
  let normalizedFiles : ℚ := min (pr.changedFiles : ℚ) 20 / 20
  let noTests : Bool := ! pr.filesChanged.any (fun f => riskTestPattern f)
  let slowMerge : Bool := decide (72 < pr.timeToMergeHours)
  normalizedLines * (4/10) + normalizedFiles * (3/10) +
    (if noTests then 2/10 else 0) + (if slowMerge then 1/10 else 0)

/-- `calculateRiskForPRs` from `risk.ts` lines 135–140. -/
def calculateRiskForPRs (prs : List PullRequest) : List PullRequest :=
  prs.map (fun pr => { pr with riskScore := some (calculateRisk pr) })

/-- `getRiskyPRs` from `risk.ts` lines 142–144 (`riskScore || 0` falls back
to `0` when the score is absent). -/
def getRiskyPRs (prs : List PullRequest) (threshold : ℚ) : List PullRequest :=
  prs.filter (fun pr => decide (threshold ≤ (pr.riskScore.getD 0)))

/-- The private `calculateFormulaRisk` from `ai-risk.ts` lines 133–145.
Unlike `calculateRisk` it applies `/test|spec/` to the raw path, without
`.toLowerCase()` and without the `\.test\.|\.spec\.` alternates. -/
def calculateFormulaRisk (pr : PullRequest) : ℚ :=
  let normalizedLines : ℚ := min ((pr.additions : ℚ) + (pr.deletions : ℚ)) 2000 / 2000
  let normalizedFiles : ℚ := min (pr.changedFiles : ℚ) 20 / 20
  let noTests : Bool := ! pr.filesChanged.any (fun f => formulaTestPattern f)
  let slowMerge : Bool := decide (72 < pr.timeToMergeHours)
  normalizedLines * (4/10) + normalizedFiles * (3/10) +
    (if noTests then 2/10 else 0) + (if slowMerge then 1/10 else 0)

/-- Round `q` to the nearest integer multiple of the spacing `u`, ties to
even (the IEEE-754 default rounding as it acts within one binade). -/
def roundAt (u q : ℚ) : ℚ :=
  if q / u - ⌊q / u⌋ < 1/2 then ⌊q / u⌋ * u
  else if 1/2 < q / u - ⌊q / u⌋ then (⌊q / u⌋ + 1) * u
  else if ⌊q / u⌋ % 2 = 0 then ⌊q / u⌋ * u else (⌊q / u⌋ + 1) * u

/-- The spacing of binary64 doubles in the binade of `q` (53-bit
significand): `2 ^ (exponent of q − 52)`. -/
def ulp2 (q : ℚ) : ℚ := (2:ℚ) ^ (Int.log 2 |q| - 52)

/-- Binary64 rounding of a real (here rational) value: round to nearest,
ties to even, in the normal range — JavaScript's number semantics for every
value this development evaluates (overflow and subnormals never arise). -/
def fl (q : ℚ) : ℚ := if q = 0 then 0 else roundAt (ulp2 q) q

/-- `calculateRisk` under the source's actual IEEE-754 double arithmetic:
every literal is the double nearest the decimal literal and every `+`, `*`
and `/` rounds its exact result (`Math.min` and comparisons are exact).
The expression tree and association match `risk.ts` lines 109–133. -/
def calculateRiskFloat (pr : PullRequest) : ℚ :=
  let totalLines : ℚ := fl ((pr.additions : ℚ) + (pr.deletions : ℚ))
  let normalizedLines : ℚ := fl (min totalLines 2000 / 2000)
  let normalizedFiles : ℚ := fl (min (pr.changedFiles : ℚ) 20 / 20)
  let noTests : Bool := ! pr.filesChanged.any (fun f => riskTestPattern f)
  let slowMerge : Bool := decide (72 < pr.timeToMergeHours)
  let t1 := fl (normalizedLines * fl (4/10))
  let t2 := fl (normalizedFiles * fl (3/10))
  let s1 := fl (t1 + t2)
  let s2 := fl (s1 + (if noTests then fl (2/10) else 0))
  fl (s2 + (if slowMerge then fl (1/10) else 0))

example : riskTestPattern ("SRC/Feature.Test.ts") = true := by decide
example : formulaTestPattern ("SRC/Feature.Test.ts") = false := by decide
example : riskTestPattern ("src/feature.ts") = false := by decide
example : formulaTestPattern ("src/charge.test.ts") = true := by decide

/-- A JavaScript `Map` with `ℕ` keys, as an insertion-ordered association
list.  `mapSet` is `Map.prototype.set`: update in place when the key exists,
append otherwise. -/
def mapSet (m : List (ℕ × α)) (k : ℕ) (v : α) : List (ℕ × α) :=
  if m.any (fun p => p.1 == k) then
    m.map (fun p => if p.1 == k then (k, v) else p)
  else
    m ++ [(k, v)]

/-- `Map.prototype.get` (first entry with the key; entries are unique in
any map built with `mapSet`). -/
def mapLookup (m : List (ℕ × α)) (k : ℕ) : Option α :=
  (m.find? (fun p => p.1 == k)).map (fun p => p.2)

/-- Structural worker for `chunked`; `fuel` is an upper bound on the number
of slices and only makes the recursion structural. -/
def chunkedAux (c : ℕ) : ℕ → List α → List (List α)
  | 0, _ => []
  | _, [] => []
  | fuel + 1, x :: xs => (x :: xs).take c :: chunkedAux c fuel ((x :: xs).drop c)

/-- The batching loop shape of `batchAnalyzeRisksWithAI` lines 76–77:
`for (let i = 0; i < prs.length; i += concurrent) batch = prs.slice(i, i + concurrent)`.
For `c = 0` the JS loop would never terminate; the model returns `[]` there
(no claim exercises `c = 0`). -/
def chunked (c : ℕ) (l : List α) : List (List α) :=
  if c = 0 then [] else chunkedAux c l.length l

/-- The asynchronous analysis provider boundary (`analyzeRiskWithAI` with a
fixed API key): `none` models a rejected promise / failed validation. -/
def Provider : Type := PullRequest → Option AIRiskAnalysis

/-- One settled `analyze` call inside a batch (`ai-risk.ts` lines 80–96):
on success the result is `Map.set` into the accumulator, on failure the
error is logged and the record skipped; either way the record's identity is
appended to the trace of issued provider calls. -/
def batchStep (provider : Provider) (acc : List (ℕ × AIRiskAnalysis) × List ℕ)
    (pr : PullRequest) : List (ℕ × AIRiskAnalysis) × List ℕ :=
  (match provider pr with
    | some analysis => mapSet acc.1 pr.number analysis
    | none => acc.1,
   acc.2 ++ [pr.number])

/-- `batchAnalyzeRisksWithAI` from `ai-risk.ts` lines 64–109, instrumented
with the ordered trace of records on which `analyzeRiskWithAI` was invoked
(the second component).  The 500 ms inter-batch delay and the progress
callback do not affect the returned map and are not modelled. -/
def batchAnalyzeFull (prs : List PullRequest) (provider : Provider)
    (concurrent : ℕ) : List (ℕ × AIRiskAnalysis) × List ℕ :=
  (chunked concurrent prs).foldl
    (fun acc batch => batch.foldl (batchStep provider) acc) ([], [])

/-- The result map of `batchAnalyzeRisksWithAI`. -/
def batchAnalyzeRisksWithAI (prs : List PullRequest) (provider : Provider)
    (concurrent : ℕ) : List (ℕ × AIRiskAnalysis) :=
  (batchAnalyzeFull prs provider concurrent).1

/-- The ordered trace of provider (`analyze`) calls issued by
`batchAnalyzeRisksWithAI`, by record identity. -/
def batchAnalyzeCalls (prs : List PullRequest) (provider : Provider)
    (concurrent : ℕ) : List ℕ :=
  (batchAnalyzeFull prs provider concurrent).2

/-- The `highRiskPRs` filter of `hybridRiskAnalysis` lines 119–123:
`prs.filter(pr => calculateFormulaRisk(pr) >= formulaRiskThreshold)`. -/
def highRiskPRs (prs : List PullRequest) (formulaRiskThreshold : ℚ) :
    List PullRequest :=
  prs.filter (fun pr => decide (formulaRiskThreshold ≤ calculateFormulaRisk pr))

/-- `hybridRiskAnalysis` from `ai-risk.ts` lines 114–128: filter by the
formula threshold, then escalate the subset with the default concurrency 3. -/
def hybridRiskAnalysis (prs : List PullRequest) (provider : Provider)
    (formulaRiskThreshold : ℚ) : List (ℕ × AIRiskAnalysis) :=
  batchAnalyzeRisksWithAI (highRiskPRs prs formulaRiskThreshold) provider 3

/-- The provider calls issued by a `hybridRiskAnalysis` run. -/
def hybridRiskCalls (prs : List PullRequest) (provider : Provider)
    (formulaRiskThreshold : ℚ) : List ℕ :=
  batchAnalyzeCalls (highRiskPRs prs formulaRiskThreshold) provider 3

/-- A record as it leaves the AI-enabled `DigestCommand`'s merge loop: the
(possibly re-scored) `PullRequest` together with the `pr.aiRiskAnalysis`
field the loop attaches dynamically (QUICKSTART.md `digest.tsx` line 1051);
the functional model pairs the record with that field instead of mutating
the object in place. -/
structure AnnotatedRecord where
  pr : PullRequest
  aiRiskAnalysis : Option AIRiskAnalysis
  deriving DecidableEq

/-- `props.aiRiskThreshold || 0.5` (QUICKSTART.md `digest.tsx` line 1044):
JavaScript `||` replaces any falsy left operand — an absent option or the
number 0 — by the 0.5 default. -/
def thresholdOrDefault : Option ℚ → ℚ
  | none => 1/2
  | some v => if v = 0 then 1/2 else v

/-- One iteration of the merge loop of the AI-enabled `DigestCommand`
(QUICKSTART.md `digest.tsx` lines 1047–1055): look the record's identity up
in `aiRiskResults`; when present, attach the analysis as `pr.aiRiskAnalysis`
and overwrite `pr.riskScore` with `aiAnalysis.riskScore`; otherwise leave
the record untouched. -/
def mergeRecord (aiRiskResults : List (ℕ × AIRiskAnalysis))
    (pr : PullRequest) : AnnotatedRecord :=
  match mapLookup aiRiskResults pr.number with
  | some aiAnalysis =>
      ⟨{ pr with riskScore := some aiAnalysis.riskScore }, some aiAnalysis⟩
  | none => ⟨pr, none⟩

/-- The AI-risk path of the AI-enabled `DigestCommand` (QUICKSTART.md
`digest.tsx` lines 1036–1056, with `props.aiRisk` set): score every record
with `calculateRiskForPRs`, call
`hybridRiskAnalysis(prsWithRisk, apiKey, props.aiRiskThreshold || 0.5)`,
then run the merge loop over `prsWithRisk`. -/
def digestAIRiskRun (prs : List PullRequest) (provider : Provider)
    (aiRiskThreshold : Option ℚ) : List AnnotatedRecord :=
  let prsWithRisk := calculateRiskForPRs prs
  prsWithRisk.map (mergeRecord
    (hybridRiskAnalysis prsWithRisk provider
      (thresholdOrDefault aiRiskThreshold)))

/-- Concrete record builder used by witnesses and counterexamples. -/
def mkPR (n : ℕ) (adds dels files : ℤ) (paths : List String) (hours : ℚ) :
    PullRequest :=
  { number := n, title := ("PR"), url := (""), labels := [],
    additions := adds, deletions := dels, changedFiles := files,
    filesChanged := paths, createdAt := 0, mergedAt := some hours,
    timeToMergeHours := hours, author := ("dev"), riskScore := none }

/-- A fixed qualitative analysis used by concrete providers. -/
def analysis0 : AIRiskAnalysis :=
  ⟨9/10, [("touches auth")], ("high impact"), [("auth")], [("add tests")]⟩

/-- Provider that always succeeds with `analysis0`. -/
def provAll : Provider := fun _ => some analysis0

/-- Provider rigged to fail exactly on record identity 2. -/
def provFail2 : Provider :=
  fun pr => if pr.number = 2 then none else some analysis0

/-- High-risk record: 3000 changed lines, 25 files, no test-like path,
101 h to merge — formula score 1. -/
def prHigh : PullRequest := mkPR 1 3000 0 25 [("src/app.js")] 101

/-- Low-risk record: tiny, has a test file — formula score 0. -/
def prLow : PullRequest := mkPR 2 0 0 0 [("a.test.ts")] 1

/-- The record exposing the case-sensitivity divergence: its only changed
file is `SRC/Feature.Test.ts`. -/
def prBug : PullRequest := mkPR 42 0 0 0 [("SRC/Feature.Test.ts")] 1

/-- A record whose only changed file is the all-lowercase `src/feature.ts`. -/
def prPlain : PullRequest := mkPR 7 0 0 0 [("src/feature.ts")] 1

/-- Seven distinct eligible records (for the batch-sizing claim). -/
def prs7 : List PullRequest :=
  [mkPR 1 3000 0 25 [("src/a.js")] 101, mkPR 2 3000 0 25 [("src/b.js")] 101,
   mkPR 3 3000 0 25 [("src/c.js")] 101, mkPR 4 3000 0 25 [("src/d.js")] 101,
   mkPR 5 3000 0 25 [("src/e.js")] 101, mkPR 6 3000 0 25 [("src/f.js")] 101,
   mkPR 7 3000 0 25 [("src/g.js")] 101]

/-- The per-record success/failure contribution: the pair the record adds to
the result map when its provider call succeeds, nothing when it fails. -/
def successEntry (provider : Provider) (pr : PullRequest) :
    Option (ℕ × AIRiskAnalysis) :=
  (provider pr).map (fun analysis => (pr.number, analysis))

/-- A record with its derived risk score forgotten: what of a record the
pipeline is not allowed to change. -/
def stripScore (pr : PullRequest) : PullRequest := { pr with riskScore := none }

example : (chunked 3 prs7).map List.length = [3, 3, 1] := by decide
example : (chunked 3 ([] : List ℕ)) = [] := by decide
example : chunked 3 [1, 2, 3, 4] = [[1, 2, 3], [4]] := by decide

/-! ### Structural lemmas about the batching loop -/

theorem chunkedAux_congr {α : Type} (c : ℕ) :
    ∀ fuel fuel' (l : List α), l.length ≤ fuel → l.length ≤ fuel' →
      c ≠ 0 → chunkedAux c fuel l = chunkedAux c fuel' l := by
  intro fuel
  induction fuel with
  | zero =>
      intro fuel' l hl _ _
      have : l = [] := List.length_eq_zero.mp (Nat.le_zero.mp hl)
      subst this
      cases fuel' <;> rfl
  | succ fuel ih =>
      intro fuel' l hl hl' hc
      cases l with
      | nil => cases fuel' <;> rfl
      | cons x xs =>
          cases fuel' with
          | zero => simp at hl'
          | succ fuel' =>
              simp only [chunkedAux]
              congr 1
              apply ih
              · simp only [List.length_drop, List.length_cons] at *
                omega
              · simp only [List.length_drop, List.length_cons] at *
                omega
              · exact hc

theorem chunked_nil {α : Type} (c : ℕ) : chunked c ([] : List α) = [] := by
  unfold chunked
  cases c <;> simp [chunkedAux]

theorem chunked_cons {α : Type} {c : ℕ} (hc : c ≠ 0) (x : α) (xs : List α) :
    chunked c (x :: xs) =
      (x :: xs).take c :: chunked c ((x :: xs).drop c) := by
  unfold chunked
  rw [if_neg hc, if_neg hc]
  simp only [List.length_cons, chunkedAux]
  congr 1
  apply chunkedAux_congr c _ _ _ _ _ hc
  · simp only [List.length_drop, List.length_cons]
    omega
  · simp

theorem chunked_pos {α : Type} {c : ℕ} (hc : c ≠ 0) (l : List α)
    (hl : l ≠ []) :
    chunked c l = l.take c :: chunked c (l.drop c) := by
  cases l with
  | nil => exact absurd rfl hl
  | cons x xs => exact chunked_cons hc x xs

/-- Flattening the batches recovers the input: the loop covers every record
exactly once, in order. -/
theorem chunked_flatten {α : Type} {c : ℕ} (hc : c ≠ 0) (l : List α) :
    (chunked c l).flatten = l := by
  have aux : ∀ fuel (l : List α), l.length ≤ fuel →
      (chunkedAux c fuel l).flatten = l := by
    intro fuel
    induction fuel with
    | zero =>
        intro l hl
        have : l = [] := List.length_eq_zero.mp (Nat.le_zero.mp hl)
        subst this
        rfl
    | succ fuel ih =>
        intro l hl
        cases l with
        | nil => rfl
        | cons x xs =>
            simp only [chunkedAux, List.flatten_cons]
            rw [ih]
            · exact List.take_append_drop c (x :: xs)
            · simp only [List.length_drop, List.length_cons] at *
              omega
  unfold chunked
  rw [if_neg hc]
  exact aux _ l (Nat.le_refl _)

/-- Batching is invisible to the fold: processing the batches in order is
processing the records in order. -/
theorem batchAnalyzeFull_eq_foldl (prs : List PullRequest)
    (provider : Provider) {c : ℕ} (hc : c ≠ 0) :
    batchAnalyzeFull prs provider c =
      prs.foldl (batchStep provider) ([], []) := by
  unfold batchAnalyzeFull
  conv_rhs => rw [← chunked_flatten hc prs, List.foldl_flatten]

/-! ### The result map is exactly the successful calls -/

theorem mapSet_of_fresh {α : Type} {m : List (ℕ × α)} {k : ℕ} (v : α)
    (h : ∀ p ∈ m, p.1 ≠ k) : mapSet m k v = m ++ [(k, v)] := by
  unfold mapSet
  rw [if_neg]
  simp only [List.any_eq_true, beq_iff_eq, not_exists, not_and]
  intro p hp
  exact h p hp

theorem foldl_batchStep_eq (provider : Provider) :
    ∀ (prs : List PullRequest) (m : List (ℕ × AIRiskAnalysis)) (tr : List ℕ),
      (prs.map (fun pr => pr.number)).Nodup →
      (∀ p ∈ m, p.1 ∉ prs.map (fun pr => pr.number)) →
      prs.foldl (batchStep provider) (m, tr) =
        (m ++ prs.filterMap (successEntry provider),
         tr ++ prs.map (fun pr => pr.number)) := by
  intro prs
  induction prs with
  | nil => intro m tr _ _; simp
  | cons pr rest ih =>
      intro m tr hnd hdisj
      simp only [List.map_cons, List.nodup_cons] at hnd
      have hfresh : ∀ p ∈ m, p.1 ≠ pr.number := by
        intro p hp
        have := hdisj p hp
        simp only [List.map_cons, List.mem_cons] at this
        exact fun h => this (Or.inl h)
      have hstep :
          batchStep provider (m, tr) pr =
            (m ++ (successEntry provider pr).toList, tr ++ [pr.number]) := by
        unfold batchStep successEntry
        cases hp : provider pr with
        | none => simp
        | some analysis =>
            simp only [Option.map_some, Option.toList_some]
            exact congrArg (fun z => (z, tr ++ [pr.number]))
              (mapSet_of_fresh analysis hfresh)
      rw [List.foldl_cons, hstep,
          ih (m ++ (successEntry provider pr).toList) (tr ++ [pr.number])
            hnd.2 ?_]
      · simp only [List.filterMap_cons, List.map_cons]
        cases hp : provider pr with
        | none =>
            simp [successEntry, hp]
        | some analysis =>
            simp [successEntry, hp]
      · intro p hp
        rcases List.mem_append.mp hp with hm | hnew
        · intro hmem
          exact hdisj p hm (by simp [hmem])
        · cases hq : provider pr with
          | none => simp [successEntry, hq] at hnew
          | some analysis =>
              have : p = (pr.number, analysis) := by
                simpa [successEntry, hq] using hnew
              subst this
              exact hnd.1

/-- The result map of the batch escalator, with no duplicate identities and
a positive batch size, is exactly the ordered list of successful calls. -/
theorem batchAnalyze_eq_filterMap (prs : List PullRequest)
    (provider : Provider) {c : ℕ} (hc : c ≠ 0)
    (hnd : (prs.map (fun pr => pr.number)).Nodup) :
    batchAnalyzeRisksWithAI prs provider c =
      prs.filterMap (successEntry provider) := by
  unfold batchAnalyzeRisksWithAI
  rw [batchAnalyzeFull_eq_foldl prs provider hc,
      foldl_batchStep_eq provider prs [] [] hnd (by simp)]
  simp

/-- The escalator issues exactly one provider call per input record, in
input order. -/
theorem batchAnalyzeCalls_eq (prs : List PullRequest) (provider : Provider)
    {c : ℕ} (hc : c ≠ 0) :
    batchAnalyzeCalls prs provider c = prs.map (fun pr => pr.number) := by
  unfold batchAnalyzeCalls
  rw [batchAnalyzeFull_eq_foldl prs provider hc]
  have aux : ∀ (l : List PullRequest) (m : List (ℕ × AIRiskAnalysis))
      (tr : List ℕ),
      (l.foldl (batchStep provider) (m, tr)).2 =
        tr ++ l.map (fun pr => pr.number) := by
    intro l
    induction l with
    | nil => intro m tr; simp
    | cons pr rest ih =>
        intro m tr
        simp only [List.foldl_cons, List.map_cons]
        rw [show batchStep provider (m, tr) pr =
              ((batchStep provider (m, tr) pr).1, tr ++ [pr.number]) from rfl]
        rw [ih]
        simp
  simpa using aux prs [] []

/-! ### Evaluating the scorers on concrete records -/

theorem calculateRisk_eval (pr : PullRequest) (nt sm : Bool)
    (hnt : pr.filesChanged.any (fun f => riskTestPattern f) = nt)
    (hsm : decide (72 < pr.timeToMergeHours) = sm) :
    calculateRisk pr =
      min ((pr.additions : ℚ) + (pr.deletions : ℚ)) 2000 / 2000 * (4/10) +
      min ((pr.changedFiles : ℚ)) 20 / 20 * (3/10) +
      (if nt then 0 else 2/10) + (if sm then 1/10 else 0) := by
  unfold calculateRisk
  rw [hnt, hsm]
  cases nt <;> cases sm <;> simp

theorem calculateFormulaRisk_eval (pr : PullRequest) (nt sm : Bool)
    (hnt : pr.filesChanged.any (fun f => formulaTestPattern f) = nt)
    (hsm : decide (72 < pr.timeToMergeHours) = sm) :
    calculateFormulaRisk pr =
      min ((pr.additions : ℚ) + (pr.deletions : ℚ)) 2000 / 2000 * (4/10) +
      min ((pr.changedFiles : ℚ)) 20 / 20 * (3/10) +
      (if nt then 0 else 2/10) + (if sm then 1/10 else 0) := by
  unfold calculateFormulaRisk
  rw [hnt, hsm]
  cases nt <;> cases sm <;> simp

theorem risk_prHigh : calculateRisk prHigh = 1 := by
  rw [calculateRisk_eval prHigh false true (by decide) (by decide)]
  norm_num [prHigh, mkPR, min_def]

theorem risk_prLow : calculateRisk prLow = 0 := by
  rw [calculateRisk_eval prLow true false (by decide) (by decide)]
  norm_num [prLow, mkPR, min_def]

theorem formulaRisk_prHigh : calculateFormulaRisk prHigh = 1 := by
  rw [calculateFormulaRisk_eval prHigh false true (by decide) (by decide)]
  norm_num [prHigh, mkPR, min_def]

theorem formulaRisk_prLow : calculateFormulaRisk prLow = 0 := by
  rw [calculateFormulaRisk_eval prLow true false (by decide) (by decide)]
  norm_num [prLow, mkPR, min_def]

theorem risk_prBug : calculateRisk prBug = 0 := by
  rw [calculateRisk_eval prBug true false (by decide) (by decide)]
  norm_num [prBug, mkPR, min_def]

theorem formulaRisk_prBug : calculateFormulaRisk prBug = 2/10 := by
  rw [calculateFormulaRisk_eval prBug false false (by decide) (by decide)]
  norm_num [prBug, mkPR, min_def]

theorem risk_prPlain : calculateRisk prPlain = 2/10 := by
  rw [calculateRisk_eval prPlain false false (by decide) (by decide)]
  norm_num [prPlain, mkPR, min_def]

theorem formulaRisk_prPlain : calculateFormulaRisk prPlain = 2/10 := by
  rw [calculateFormulaRisk_eval prPlain false false (by decide) (by decide)]
  norm_num [prPlain, mkPR, min_def]

/-! ### Boundedness of the weighted formula -/

theorem riskShape_bounds (a b : ℚ) (ha : 0 ≤ a) (hb : 0 ≤ b)
    (nt sm : Bool) :
    0 ≤ min a 2000 / 2000 * (4/10) + min b 20 / 20 * (3/10) +
        (if nt then (2:ℚ)/10 else 0) + (if sm then (1:ℚ)/10 else 0) ∧
    min a 2000 / 2000 * (4/10) + min b 20 / 20 * (3/10) +
        (if nt then (2:ℚ)/10 else 0) + (if sm then (1:ℚ)/10 else 0) ≤ 1 := by
  have h2 : (0:ℚ) ≤ min a 2000 := le_min ha (by norm_num)
  have h3 : min a 2000 ≤ 2000 := min_le_right _ _
  have h4 : (0:ℚ) ≤ min b 20 := le_min hb (by norm_num)
  have h5 : min b 20 ≤ 20 := min_le_right _ _
  have hA0 : (0:ℚ) ≤ min a 2000 / 2000 * (4/10) :=
    mul_nonneg (div_nonneg h2 (by norm_num)) (by norm_num)
  have hA1 : min a 2000 / 2000 * (4/10) ≤ 4/10 := by
    have hle : min a 2000 / 2000 ≤ 1 := by
      rw [div_le_one (by norm_num)]
      exact h3
    calc min a 2000 / 2000 * (4/10) ≤ 1 * (4/10) :=
          mul_le_mul_of_nonneg_right hle (by norm_num)
      _ = 4/10 := one_mul _
  have hB0 : (0:ℚ) ≤ min b 20 / 20 * (3/10) :=
    mul_nonneg (div_nonneg h4 (by norm_num)) (by norm_num)
  have hB1 : min b 20 / 20 * (3/10) ≤ 3/10 := by
    have hle : min b 20 / 20 ≤ 1 := by
      rw [div_le_one (by norm_num)]
      exact h5
    calc min b 20 / 20 * (3/10) ≤ 1 * (3/10) :=
          mul_le_mul_of_nonneg_right hle (by norm_num)
      _ = 3/10 := one_mul _
  constructor <;> (cases nt <;> cases sm <;> simp <;> linarith)

/-! ### Substring reasoning for the two test-file patterns -/

theorem startsWith_iff : ∀ n h : List Char,
    startsWith n h = true ↔ ∃ t, h = n ++ t := by
  intro n
  induction n with
  | nil =>
      intro h
      simp [startsWith]
  | cons a as ih =>
      intro h
      cases h with
      | nil =>
          simp [startsWith]
      | cons b bs =>
          simp only [startsWith, Bool.and_eq_true, beq_iff_eq, ih,
            List.cons_append, List.cons.injEq]
          constructor
          · rintro ⟨rfl, t, rfl⟩
            exact ⟨t, rfl, rfl⟩
          · rintro ⟨t, rfl, rfl⟩
            exact ⟨rfl, t, rfl⟩

theorem hasSub_iff : ∀ n h : List Char,
    hasSub n h = true ↔ ∃ p t, h = p ++ n ++ t := by
  intro n h
  induction h with
  | nil =>
      simp only [hasSub, startsWith_iff]
      constructor
      · rintro ⟨t, ht⟩
        exact ⟨[], t, by simpa using ht⟩
      · rintro ⟨p, t, ht⟩
        refine ⟨t, ?_⟩
        have hp : p = [] := by
          cases p with
          | nil => rfl
          | cons c cs => simp at ht
        subst hp
        simpa using ht
  | cons c rest ih =>
      simp only [hasSub, Bool.or_eq_true, startsWith_iff, ih]
      constructor
      · rintro (⟨t, ht⟩ | ⟨p, t, ht⟩)
        · exact ⟨[], t, by simpa using ht⟩
        · exact ⟨c :: p, t, by simp [ht]⟩
      · rintro ⟨p, t, ht⟩
        cases p with
        | nil =>
            exact Or.inl ⟨t, by simpa using ht⟩
        | cons c' p' =>
            simp only [List.cons_append, List.cons.injEq] at ht
            exact Or.inr ⟨p', t, ht.2⟩

theorem hasSub_middle {a n b l : List Char}
    (h : hasSub (a ++ n ++ b) l = true) : hasSub n l = true := by
  rcases (hasSub_iff _ _).mp h with ⟨p, t, ht⟩
  exact (hasSub_iff _ _).mpr ⟨p ++ a, b ++ t, by simp [ht, List.append_assoc]⟩

/-- On a path whose characters are fixed by `toLower` (in particular any
all-lowercase ASCII path) the two test-file patterns coincide. -/
theorem patterns_agree (f : String)
    (h : ∀ ch ∈ f.data, Char.toLower ch = ch) :
    riskTestPattern f = formulaTestPattern f := by
  have hl : lowerData f = f.data := by
    unfold lowerData
    rw [List.map_congr_left h]
    simp
  have hT : hasSub ((".test.").data) f.data = true →
      hasSub (("test").data) f.data = true := by
    intro hx
    have hdec : (".test.").data = (".").data ++ ("test").data ++ (".").data := by
      decide
    rw [hdec] at hx
    exact hasSub_middle hx
  have hS : hasSub ((".spec.").data) f.data = true →
      hasSub (("spec").data) f.data = true := by
    intro hx
    have hdec : (".spec.").data = (".").data ++ ("spec").data ++ (".").data := by
      decide
    rw [hdec] at hx
    exact hasSub_middle hx
  unfold riskTestPattern formulaTestPattern
  rw [hl]
  cases h1 : hasSub (("test").data) f.data with
  | true => simp [h1]
  | false =>
      cases h2 : hasSub (("spec").data) f.data with
      | true => simp [h2]
      | false =>
          have e3 : hasSub ((".test.").data) f.data = false := by
            cases h3 : hasSub ((".test.").data) f.data
            · rfl
            · exact absurd (hT h3) (by simp [h1])
          have e4 : hasSub ((".spec.").data) f.data = false := by
            cases h4 : hasSub ((".spec.").data) f.data
            · rfl
            · exact absurd (hS h4) (by simp [h2])
          simp [e3, e4]

/-- On records whose changed-file paths are untouched by lower-casing, the
module-level scorer and the hybrid module's private copy agree. -/
theorem scorers_agree_of_lower (pr : PullRequest)
    (h : ∀ f ∈ pr.filesChanged, ∀ ch ∈ f.data, Char.toLower ch = ch) :
    calculateRisk pr = calculateFormulaRisk pr := by
  have hany : ∀ L : List String,
      (∀ f ∈ L, ∀ ch ∈ f.data, Char.toLower ch = ch) →
      L.any (fun f => riskTestPattern f) = L.any (fun f => formulaTestPattern f) := by
    intro L
    induction L with
    | nil => intro _; rfl
    | cons f fs ih =>
        intro hL
        simp only [List.any_cons]
        rw [patterns_agree f (hL f (by simp)),
            ih (fun g hg => hL g (by simp [hg]))]
  unfold calculateRisk calculateFormulaRisk
  rw [hany pr.filesChanged h]

/-! ### Merge semantics of the modelled pipeline -/

theorem mergeRecord_of_some {m : List (ℕ × AIRiskAnalysis)}
    {pr : PullRequest} {a : AIRiskAnalysis}
    (h : mapLookup m pr.number = some a) :
    mergeRecord m pr = ⟨{ pr with riskScore := some a.riskScore }, some a⟩ := by
  unfold mergeRecord
  rw [h]

theorem mergeRecord_of_none {m : List (ℕ × AIRiskAnalysis)}
    {pr : PullRequest} (h : mapLookup m pr.number = none) :
    mergeRecord m pr = ⟨pr, none⟩ := by
  unfold mergeRecord
  rw [h]

theorem digest_merge_elem (prs : List PullRequest) (provider : Provider)
    (t : Option ℚ) (i : ℕ) (hi : i < prs.length) :
    ∃ r, (digestAIRiskRun prs provider t)[i]? = some r ∧
      (∀ a, mapLookup (hybridRiskAnalysis (calculateRiskForPRs prs) provider
          (thresholdOrDefault t)) prs[i].number = some a →
        r.pr.riskScore = some a.riskScore ∧ r.aiRiskAnalysis = some a) ∧
      (mapLookup (hybridRiskAnalysis (calculateRiskForPRs prs) provider
          (thresholdOrDefault t)) prs[i].number = none →
        r.pr.riskScore = some (calculateRisk prs[i]) ∧
        r.aiRiskAnalysis = none) := by
  have hg : (calculateRiskForPRs prs)[i]? =
      some { prs[i] with riskScore := some (calculateRisk prs[i]) } := by
    unfold calculateRiskForPRs
    rw [List.getElem?_map, List.getElem?_eq_getElem hi]
    rfl
  unfold digestAIRiskRun
  rw [List.getElem?_map, hg]
  cases hx : mapLookup (hybridRiskAnalysis (calculateRiskForPRs prs)
      provider (thresholdOrDefault t)) prs[i].number with
  | some a0 =>
      rw [Option.map_some',
        @mergeRecord_of_some _ { prs[i] with
          riskScore := some (calculateRisk prs[i]) } a0 hx]
      refine ⟨_, rfl, ?_, ?_⟩
      · intro a ha
        cases ha
        exact ⟨rfl, rfl⟩
      · intro ha
        cases ha
  | none =>
      rw [Option.map_some',
        @mergeRecord_of_none _ { prs[i] with
          riskScore := some (calculateRisk prs[i]) } hx]
      refine ⟨_, rfl, ?_, ?_⟩
      · intro a ha
        cases ha
      · intro _
        exact ⟨rfl, rfl⟩

theorem digest_order_aux (prs : List PullRequest) (provider : Provider)
    (t : Option ℚ) :
    (digestAIRiskRun prs provider t).map (fun r => stripScore r.pr) =
      prs.map stripScore := by
  unfold digestAIRiskRun calculateRiskForPRs
  rw [List.map_map, List.map_map]
  apply List.map_congr_left
  intro pr _
  simp only [Function.comp]
  cases hx : mapLookup
      (hybridRiskAnalysis
        (prs.map fun pr => { pr with riskScore := some (calculateRisk pr) })
        provider (thresholdOrDefault t))
      pr.number with
  | some a0 =>
      rw [@mergeRecord_of_some _
        { pr with riskScore := some (calculateRisk pr) } a0 hx]
      rfl
  | none =>
      rw [@mergeRecord_of_none _
        { pr with riskScore := some (calculateRisk pr) } hx]
      rfl

/-! ### Claims -/

/-- C6: for every record with non-negative additions, deletions and
changed-file count, the formula score lies in [0, 1]:
`0 <= calculateRisk pr <= 1`. -/
theorem claim_C6_formula_bounded (pr : PullRequest)
    (ha : 0 ≤ pr.additions) (hd : 0 ≤ pr.deletions)
    (hf : 0 ≤ pr.changedFiles) :
    0 ≤ calculateRisk pr ∧ calculateRisk pr ≤ 1 := by
  have ha' : (0:ℚ) ≤ (pr.additions : ℚ) := by exact_mod_cast ha
  have hd' : (0:ℚ) ≤ (pr.deletions : ℚ) := by exact_mod_cast hd
  have hf' : (0:ℚ) ≤ (pr.changedFiles : ℚ) := by exact_mod_cast hf
  exact riskShape_bounds _ _ (add_nonneg ha' hd') hf' _ _

/-- Witness for C6 at the concrete record `prPlain`. -/
theorem claim_C6_witness :
    (0 ≤ prPlain.additions ∧ 0 ≤ prPlain.deletions ∧
      0 ≤ prPlain.changedFiles) ∧
    (0 ≤ calculateRisk prPlain ∧ calculateRisk prPlain ≤ 1) :=
  ⟨by decide, claim_C6_formula_bounded prPlain (by decide) (by decide)
    (by decide)⟩

/-- The exact-rational idealization of the saturated case: with both caps
reached, no test-like file and a slow merge, the weight sum is exactly 1
over ℚ — the spec's intended reading of `0.4+0.3+0.2+0.1`. -/
theorem calculateRisk_saturated (pr : PullRequest)
    (hl : 2000 ≤ pr.additions + pr.deletions)
    (hf : 20 ≤ pr.changedFiles)
    (ht : pr.filesChanged.any (fun f => riskTestPattern f) = false)
    (hm : 72 < pr.timeToMergeHours) :
    calculateRisk pr = 1 := by
  rw [calculateRisk_eval pr false true ht (decide_eq_true hm)]
  have hl' : (2000:ℚ) ≤ (pr.additions : ℚ) + (pr.deletions : ℚ) := by
    exact_mod_cast hl
  have hf' : (20:ℚ) ≤ (pr.changedFiles : ℚ) := by exact_mod_cast hf
  rw [min_eq_right hl', min_eq_right hf']
  norm_num

/-! ### Binary64 evaluation of the weight sum -/

theorem Intlog2_pin (q : ℚ) (e : ℤ) (h0 : 0 < q) (h1 : (2:ℚ)^e ≤ q)
    (h2 : q < (2:ℚ)^(e+1)) : Int.log 2 q = e := by
  have hl : e ≤ Int.log 2 q := (Int.zpow_le_iff_le_log (by norm_num) h0).mp h1
  have hu : Int.log 2 q < e + 1 :=
    (Int.lt_zpow_iff_log_lt (by norm_num) h0).mp h2
  omega

theorem fl_eval_lt (q u : ℚ) (e n : ℤ) (h0 : 0 < q)
    (h1 : (2:ℚ)^e ≤ q) (h2 : q < (2:ℚ)^(e+1))
    (hu : (2:ℚ)^(e-52) = u)
    (hn1 : (n:ℚ) ≤ q / u) (hn2 : q / u - n < 1/2) :
    fl q = (n:ℚ) * u := by
  have hne : q ≠ 0 := ne_of_gt h0
  have hfl : ⌊q / u⌋ = n := Int.floor_eq_iff.mpr ⟨hn1, by linarith⟩
  unfold fl roundAt ulp2
  rw [if_neg hne, abs_of_pos h0, Intlog2_pin q e h0 h1 h2, hu, hfl,
    if_pos hn2]

theorem fl_eval_gt (q u : ℚ) (e n : ℤ) (h0 : 0 < q)
    (h1 : (2:ℚ)^e ≤ q) (h2 : q < (2:ℚ)^(e+1))
    (hu : (2:ℚ)^(e-52) = u)
    (hn1 : (n:ℚ) ≤ q / u) (hn2 : 1/2 < q / u - n) (hn3 : q / u < n + 1) :
    fl q = ((n + 1 : ℤ):ℚ) * u := by
  have hne : q ≠ 0 := ne_of_gt h0
  have hfl : ⌊q / u⌋ = n := Int.floor_eq_iff.mpr ⟨hn1, by linarith⟩
  unfold fl roundAt ulp2
  rw [if_neg hne, abs_of_pos h0, Intlog2_pin q e h0 h1 h2, hu, hfl,
    if_neg (by linarith), if_pos hn2]
  push_cast
  ring

theorem fl_eval_tie (q u : ℚ) (e n : ℤ) (h0 : 0 < q)
    (h1 : (2:ℚ)^e ≤ q) (h2 : q < (2:ℚ)^(e+1))
    (hu : (2:ℚ)^(e-52) = u)
    (heq : q / u - n = 1/2) (hpar : n % 2 = 0) :
    fl q = (n:ℚ) * u := by
  have hne : q ≠ 0 := ne_of_gt h0
  have hfl : ⌊q / u⌋ = n := by
    refine Int.floor_eq_iff.mpr ⟨by linarith, by linarith⟩
  unfold fl roundAt ulp2
  rw [if_neg hne, abs_of_pos h0, Intlog2_pin q e h0 h1 h2, hu, hfl,
    if_neg (by linarith), if_neg (by linarith), if_pos hpar]

/-- The double nearest the literal `0.4`. -/
theorem fl_two_fifths :
    fl (2/5) = 3602879701896397 / 9007199254740992 := by
  rw [fl_eval_gt (2/5) (1/18014398509481984) (-2) 7205759403792793
    (by norm_num) (by norm_num) (by norm_num) (by norm_num) (by norm_num)
    (by norm_num) (by norm_num)]
  norm_num

/-- The double nearest the literal `0.3`. -/
theorem fl_three_tenths :
    fl (3/10) = 5404319552844595 / 18014398509481984 := by
  rw [fl_eval_lt (3/10) (1/18014398509481984) (-2) 5404319552844595
    (by norm_num) (by norm_num) (by norm_num) (by norm_num) (by norm_num)
    (by norm_num)]
  norm_num

/-- The double nearest the literal `0.2`. -/
theorem fl_one_fifth :
    fl (1/5) = 3602879701896397 / 18014398509481984 := by
  rw [fl_eval_gt (1/5) (1/36028797018963968) (-3) 7205759403792793
    (by norm_num) (by norm_num) (by norm_num) (by norm_num) (by norm_num)
    (by norm_num) (by norm_num)]
  norm_num

/-- The double nearest the literal `0.1`. -/
theorem fl_one_tenth :
    fl (1/10) = 3602879701896397 / 36028797018963968 := by
  rw [fl_eval_gt (1/10) (1/72057594037927936) (-4) 7205759403792793
    (by norm_num) (by norm_num) (by norm_num) (by norm_num) (by norm_num)
    (by norm_num) (by norm_num)]
  norm_num

theorem fl_one : fl 1 = 1 := by
  rw [fl_eval_lt 1 (1/4503599627370496) 0 4503599627370496
    (by norm_num) (by norm_num) (by norm_num) (by norm_num) (by norm_num)
    (by norm_num)]
  norm_num

theorem fl_3000 : fl 3000 = 3000 := by
  rw [fl_eval_lt 3000 (1/2199023255552) 11 6597069766656000
    (by norm_num) (by norm_num) (by norm_num) (by norm_num) (by norm_num)
    (by norm_num)]
  norm_num

/-- The double of `0.4` is exactly representable (a fixpoint of `fl`). -/
theorem fl_fix_d4 :
    fl (3602879701896397 / 9007199254740992) =
      3602879701896397 / 9007199254740992 := by
  rw [fl_eval_lt (3602879701896397 / 9007199254740992)
    (1/18014398509481984) (-2) 7205759403792794
    (by norm_num) (by norm_num) (by norm_num) (by norm_num) (by norm_num)
    (by norm_num)]
  norm_num

/-- The double of `0.3` is exactly representable. -/
theorem fl_fix_d3 :
    fl (5404319552844595 / 18014398509481984) =
      5404319552844595 / 18014398509481984 := by
  rw [fl_eval_lt (5404319552844595 / 18014398509481984)
    (1/18014398509481984) (-2) 5404319552844595
    (by norm_num) (by norm_num) (by norm_num) (by norm_num) (by norm_num)
    (by norm_num)]
  norm_num

/-- `fl(0.4 + 0.3)`: an exact tie, rounded to the even mantissa — the
double `0.7`. -/
theorem fl_sum1 :
    fl (12610078956637389 / 18014398509481984) =
      3152519739159347 / 4503599627370496 := by
  rw [fl_eval_tie (12610078956637389 / 18014398509481984)
    (1/9007199254740992) (-1) 6305039478318694
    (by norm_num) (by norm_num) (by norm_num) (by norm_num) (by norm_num)
    (by norm_num)]
  norm_num

/-- `fl(fl(0.4+0.3) + 0.2)`: again a tie to even — `0.8999999999999999`. -/
theorem fl_sum2 :
    fl (16212958658533785 / 18014398509481984) =
      2026619832316723 / 2251799813685248 := by
  rw [fl_eval_tie (16212958658533785 / 18014398509481984)
    (1/9007199254740992) (-1) 8106479329266892
    (by norm_num) (by norm_num) (by norm_num) (by norm_num) (by norm_num)
    (by norm_num)]
  norm_num

/-- `fl(fl(fl(0.4+0.3)+0.2) + 0.1) = 1 − 2⁻⁵³ = 0.9999999999999999`. -/
theorem fl_total :
    fl (36028797018963965 / 36028797018963968) =
      9007199254740991 / 9007199254740992 := by
  rw [fl_eval_lt (36028797018963965 / 36028797018963968)
    (1/9007199254740992) (-1) 9007199254740991
    (by norm_num) (by norm_num) (by norm_num) (by norm_num) (by norm_num)
    (by norm_num)]
  norm_num

/-- The saturated record's score as the source program actually computes
it, in IEEE-754 doubles. -/
theorem calculateRiskFloat_prHigh :
    calculateRiskFloat prHigh = 9007199254740991 / 9007199254740992 := by
  have hA : (([("src/app.js")] : List String).any
      fun f => riskTestPattern f) = false := by decide
  have hT : decide ((72:ℚ) < 101) = true := by decide
  unfold calculateRiskFloat
  norm_num [prHigh, mkPR, hA, hT, min_def, fl_3000, fl_one, fl_two_fifths,
    fl_three_tenths, fl_one_fifth, fl_one_tenth, fl_fix_d4, fl_fix_d3,
    fl_sum1, fl_sum2, fl_total]

/-- C8: the code contradicts the claimed (and spec-intended) exact score of
1.0.  Under the exact-rational idealization the saturated record scores
exactly 1, but the source computes in IEEE-754 doubles, where
`((0.4 + 0.3) + 0.2) + 0.1` evaluates to `0.9999999999999999 = 1 − 2⁻⁵³`,
so `calculateRisk` never returns exactly 1.0 for this record. -/
theorem claim_C8_float_divergence :
    calculateRisk prHigh = 1 ∧
    calculateRiskFloat prHigh = 9007199254740991 / 9007199254740992 ∧
    calculateRiskFloat prHigh ≠ 1 :=
  ⟨risk_prHigh, calculateRiskFloat_prHigh, by
    rw [calculateRiskFloat_prHigh]
    norm_num⟩

/-- C4: escalation selection is an inclusive threshold comparison — a
record whose formula score equals the threshold is in the escalation
subset; a record whose score is strictly below it is not. -/
theorem claim_C4_threshold_inclusive (prs : List PullRequest) (t : ℚ)
    (pr : PullRequest) (hmem : pr ∈ prs) :
    (calculateFormulaRisk pr = t → pr ∈ highRiskPRs prs t) ∧
    (calculateFormulaRisk pr < t → pr ∉ highRiskPRs prs t) := by
  constructor
  · intro he
    unfold highRiskPRs
    refine List.mem_filter.mpr ⟨hmem, ?_⟩
    simp [he]
  · intro hlt hin
    have hge := (List.mem_filter.mp hin).2
    simp only [decide_eq_true_eq] at hge
    exact absurd hge (not_le.mpr hlt)

/-- Witness for C4: `prPlain` with threshold exactly its formula score. -/
theorem claim_C4_witness :
    prPlain ∈ [prPlain] ∧
    ((calculateFormulaRisk prPlain = 2/10 →
        prPlain ∈ highRiskPRs [prPlain] (2/10)) ∧
     (calculateFormulaRisk prPlain < 2/10 →
        prPlain ∉ highRiskPRs [prPlain] (2/10))) :=
  ⟨by simp, claim_C4_threshold_inclusive [prPlain] (2/10) prPlain (by simp)⟩

/-- C2: the claimed case-insensitivity of test-like detection holds for
`calculateRisk` (which lower-cases the path), but NOT for the
`calculateFormulaRisk` copy used by the hybrid pipeline's threshold filter:
on the record whose only changed file is `SRC/Feature.Test.ts` the hybrid
filter's scorer yields `noTestsTerm = 0.2` (score 0.2 instead of 0) and at
threshold 0.2 even escalates that record. -/
theorem claim_C2_case_divergence :
    riskTestPattern ("SRC/Feature.Test.ts") = true ∧
    riskTestPattern ("src/feature.ts") = false ∧
    calculateRisk prBug = 0 ∧
    calculateRisk prPlain = 2/10 ∧
    formulaTestPattern ("SRC/Feature.Test.ts") = false ∧
    calculateFormulaRisk prBug = 2/10 ∧
    highRiskPRs [prBug] (2/10) = [prBug] := by
  have hdec : decide ((2:ℚ)/10 ≤ calculateFormulaRisk prBug) = true := by
    rw [formulaRisk_prBug]
    exact decide_eq_true (le_refl _)
  refine ⟨by decide, by decide, risk_prBug, risk_prPlain, by decide,
    formulaRisk_prBug, ?_⟩
  unfold highRiskPRs
  rw [List.filter_cons, hdec]
  rfl

/-- Counterexample to C10: on the record whose only changed file is
`SRC/Feature.Test.ts` the two formula-score implementations differ
(0 versus 0.2). -/
theorem claim_C10_counterexample :
    calculateRisk prBug ≠ calculateFormulaRisk prBug := by
  rw [risk_prBug, formulaRisk_prBug]
  norm_num

/-- C10 (amended): the two formula-score implementations agree on every
record all of whose changed-file paths are fixed by lower-casing (in
particular all-lowercase paths); in general they can differ because
`calculateRisk` lower-cases the path before the test/spec check and
`calculateFormulaRisk` does not. -/
theorem claim_C10_scorers_agree (pr : PullRequest)
    (h : ∀ f ∈ pr.filesChanged, ∀ ch ∈ f.data, Char.toLower ch = ch) :
    calculateRisk pr = calculateFormulaRisk pr :=
  scorers_agree_of_lower pr h

/-- Witness for C10 (amended) at the all-lowercase record `prPlain`. -/
theorem claim_C10_witness :
    (∀ f ∈ prPlain.filesChanged, ∀ ch ∈ f.data, Char.toLower ch = ch) ∧
    calculateRisk prPlain = calculateFormulaRisk prPlain :=
  ⟨by decide, claim_C10_scorers_agree prPlain (by decide)⟩

/-- C9: on an empty record set the AI-enabled digest run returns an empty
output, the escalation map is empty and zero provider calls are issued,
for every provider and every threshold (both the CLI option and the raw
`hybridRiskAnalysis` threshold). -/
theorem claim_C9_empty_input (provider : Provider) (t : Option ℚ)
    (u : ℚ) :
    digestAIRiskRun [] provider t = [] ∧
    hybridRiskAnalysis [] provider u = [] ∧
    hybridRiskCalls [] provider u = [] := by
  refine ⟨rfl, ?_, ?_⟩ <;>
    simp [hybridRiskAnalysis, hybridRiskCalls, batchAnalyzeRisksWithAI,
      batchAnalyzeCalls, batchAnalyzeFull, highRiskPRs, chunked_nil]

/-- Witness for C9 at a concrete provider and threshold. -/
theorem claim_C9_witness :
    digestAIRiskRun [] provAll (some (1/2)) = [] ∧
    hybridRiskAnalysis [] provAll (1/2) = [] ∧
    hybridRiskCalls [] provAll (1/2) = [] :=
  claim_C9_empty_input provAll (some (1/2)) (1/2)

/-- C7: with concurrency 3 a 7-record input forms exactly the batches of
sizes 3, 3, 1, batching covers the input in order, and the result map is
the same as analyzing the records one at a time (concurrency 1). -/
theorem claim_C7_batch_sizing (prs : List PullRequest) (provider : Provider)
    (h7 : prs.length = 7) :
    (chunked 3 prs).map List.length = [3, 3, 1] ∧
    (chunked 3 prs).flatten = prs ∧
    batchAnalyzeRisksWithAI prs provider 3 =
      batchAnalyzeRisksWithAI prs provider 1 := by
  refine ⟨?_, chunked_flatten (by decide) prs, ?_⟩
  · have h1 : prs ≠ [] := by
      intro h
      rw [h] at h7
      simp at h7
    rw [chunked_pos (by decide) prs h1]
    have l1 : (prs.take 3).length = 3 := by
      rw [List.length_take]
      omega
    have hd1 : (prs.drop 3).length = 4 := by
      rw [List.length_drop]
      omega
    have h2 : prs.drop 3 ≠ [] := by
      intro h
      rw [h] at hd1
      simp at hd1
    rw [chunked_pos (by decide) _ h2]
    have l2 : ((prs.drop 3).take 3).length = 3 := by
      rw [List.length_take]
      omega
    have hd2 : ((prs.drop 3).drop 3).length = 1 := by
      simp only [List.length_drop]
      omega
    have h3 : (prs.drop 3).drop 3 ≠ [] := by
      intro h
      rw [h] at hd2
      simp at hd2
    rw [chunked_pos (by decide) _ h3]
    have l3 : (((prs.drop 3).drop 3).take 3).length = 1 := by
      rw [List.length_take]
      omega
    have hlast : ((prs.drop 3).drop 3).drop 3 = [] := by
      refine List.length_eq_zero.mp ?_
      simp only [List.length_drop]
      omega
    rw [hlast, chunked_nil]
    simp only [List.map_cons, List.map_nil]
    rw [l1, l2, l3]
  · unfold batchAnalyzeRisksWithAI
    rw [@batchAnalyzeFull_eq_foldl prs provider 3 (by decide),
        @batchAnalyzeFull_eq_foldl prs provider 1 (by decide)]

/-- Witness for C7 at the concrete 7-record list `prs7`. -/
theorem claim_C7_witness :
    prs7.length = 7 ∧
    ((chunked 3 prs7).map List.length = [3, 3, 1] ∧
     (chunked 3 prs7).flatten = prs7 ∧
     batchAnalyzeRisksWithAI prs7 provAll 3 =
       batchAnalyzeRisksWithAI prs7 provAll 1) :=
  ⟨by decide, claim_C7_batch_sizing prs7 provAll (by decide)⟩

/-- C5: per-record provider failures are isolated — with no duplicate
identities the batch escalator's map is exactly the ordered list of
successful calls keyed by record identity (failed records simply absent),
and its size is the number of successful calls. -/
theorem claim_C5_failure_isolation (prs : List PullRequest)
    (provider : Provider) (c : ℕ) (hc : c ≠ 0)
    (hnd : (prs.map (fun pr => pr.number)).Nodup) :
    batchAnalyzeRisksWithAI prs provider c =
      prs.filterMap (successEntry provider) ∧
    (batchAnalyzeRisksWithAI prs provider c).length =
      prs.countP (fun pr => (provider pr).isSome) := by
  have h := batchAnalyze_eq_filterMap prs provider hc hnd
  refine ⟨h, ?_⟩
  rw [h, List.length_filterMap_eq_countP]
  simp [successEntry]

/-- Witness for C5: three records, the provider rigged to fail exactly on
identity 2 — the map is the two successful entries, size N-1 = 2. -/
theorem claim_C5_witness :
    ((3:ℕ) ≠ 0 ∧
      (([prHigh, prLow, prBug].map (fun pr => pr.number))).Nodup) ∧
    (batchAnalyzeRisksWithAI [prHigh, prLow, prBug] provFail2 3 =
        [prHigh, prLow, prBug].filterMap (successEntry provFail2) ∧
      (batchAnalyzeRisksWithAI [prHigh, prLow, prBug] provFail2 3).length =
        [prHigh, prLow, prBug].countP (fun pr => (provFail2 pr).isSome)) ∧
    (batchAnalyzeRisksWithAI [prHigh, prLow, prBug] provFail2 3).length = 2 :=
  ⟨⟨by decide, by decide⟩,
   claim_C5_failure_isolation [prHigh, prLow, prBug] provFail2 3 (by decide)
     (by decide),
   by decide⟩

/-- C3: the AI-enabled digest run returns the full original record set —
same length, same relative order and content (up to the score annotation),
regardless of provider outcomes and threshold. -/
theorem claim_C3_order_preserved (prs : List PullRequest)
    (provider : Provider) (t : Option ℚ) :
    (digestAIRiskRun prs provider t).length = prs.length ∧
    (digestAIRiskRun prs provider t).map (fun r => stripScore r.pr) =
      prs.map stripScore := by
  refine ⟨?_, digest_order_aux prs provider t⟩
  simp [digestAIRiskRun, calculateRiskForPRs]

/-- Witness for C3 at a concrete two-record run with a failing provider. -/
theorem claim_C3_witness :
    (digestAIRiskRun [prHigh, prLow] provFail2 (some (1/2))).length =
      ([prHigh, prLow] : List PullRequest).length ∧
    (digestAIRiskRun [prHigh, prLow] provFail2 (some (1/2))).map
        (fun r => stripScore r.pr) =
      ([prHigh, prLow] : List PullRequest).map stripScore :=
  claim_C3_order_preserved [prHigh, prLow] provFail2 (some (1/2))

/-- C1: a record whose identity is a key of the escalator's result map
gets exactly the analysis's own score (pure overwrite) and carries the
analysis; a record absent from the map keeps its formula score and carries
no qualitative analysis. -/
theorem claim_C1_score_override (prs : List PullRequest)
    (provider : Provider) (t : Option ℚ) (i : ℕ) (hi : i < prs.length) :
    ∃ r, (digestAIRiskRun prs provider t)[i]? = some r ∧
      (∀ a, mapLookup (hybridRiskAnalysis (calculateRiskForPRs prs) provider
          (thresholdOrDefault t)) prs[i].number = some a →
        r.pr.riskScore = some a.riskScore ∧ r.aiRiskAnalysis = some a) ∧
      (mapLookup (hybridRiskAnalysis (calculateRiskForPRs prs) provider
          (thresholdOrDefault t)) prs[i].number = none →
        r.pr.riskScore = some (calculateRisk prs[i]) ∧
        r.aiRiskAnalysis = none) :=
  digest_merge_elem prs provider t i hi

/-- Witness for C1: the two-record run where the first record is escalated
and analyzed successfully. -/
theorem claim_C1_witness :
    0 < ([prHigh, prLow] : List PullRequest).length ∧
    ∃ r, (digestAIRiskRun [prHigh, prLow] provFail2 (some (1/2)))[0]? =
        some r ∧
      (∀ a, mapLookup
          (hybridRiskAnalysis (calculateRiskForPRs [prHigh, prLow])
            provFail2 (thresholdOrDefault (some (1/2))))
          ([prHigh, prLow] : List PullRequest)[0].number = some a →
        r.pr.riskScore = some a.riskScore ∧ r.aiRiskAnalysis = some a) ∧
      (mapLookup
          (hybridRiskAnalysis (calculateRiskForPRs [prHigh, prLow])
            provFail2 (thresholdOrDefault (some (1/2))))
          ([prHigh, prLow] : List PullRequest)[0].number = none →
        r.pr.riskScore =
          some (calculateRisk ([prHigh, prLow] : List PullRequest)[0]) ∧
        r.aiRiskAnalysis = none) :=
  ⟨by decide,
   claim_C1_score_override [prHigh, prLow] provFail2 (some (1/2)) 0
     (by decide)⟩
